import Mathlib

/-!
# Verification of the knorm query engine against its specification

A shallow embedding, in Lean, of the query-compilation and result-reconstruction
engine of the knorm ORM (`src/Query.js` and the `Grouping` expression-tree node),
together with proofs and refutations of the specified properties.

Conventions of the embedding:
* JavaScript scalar values are modelled by `Val` (`null`, integers, strings).
* JavaScript objects used as ordered string-keyed maps are modelled by
  insertion-ordered association lists (`lookupA` / `setA`).
* Mutable JavaScript objects that are shared by reference (the reconstructed
  records of `Query.prototype._parseData`) are modelled by an explicit store
  (`List Rec`) addressed by numeric references, so that mutation through one
  reference is visible through every other.
* Fallible operations return `Except KnormError _`; the asynchronous boundary
  (the builder's `select` / `first` call) is modelled by passing the rows or the
  driver outcome that the builder produced as an explicit argument.
-/

/-- A JavaScript scalar value as it appears in result rows and bound parameter
lists: `null`, a number, or a string. -/
inductive Val where
  | null
  | i (n : Int)
  | s (str : String)
deriving DecidableEq, Repr

/-- Association-list lookup, first match wins: models JavaScript property read
`obj[key]`, where an absent key reads as `undefined` (`none`). -/
def lookupA {α : Type} (l : List (String × α)) (key : String) : Option α :=
  match l with
  | [] => none
  | (k, v) :: rest => if k = key then some v else lookupA rest key

/-- Association-list update: models JavaScript property write `obj[key] = v`.
An existing key is overwritten in place (JavaScript keeps the original key
position); a new key is appended (JavaScript appends in insertion order). -/
def setA {α : Type} (l : List (String × α)) (key : String) (v : α) :
    List (String × α) :=
  match l with
  | [] => [(key, v)]
  | (k, w) :: rest => if k = key then (k, v) :: rest else (k, w) :: setA rest key v

/-- Count of `?` placeholder characters in a SQL string. -/
def countQ (sql : String) : Nat := sql.data.count '?'

/-- JavaScript `Array.join`: `parts.join(sep)`. -/
def joinSep (sep : String) : List String → String
  | [] => ""
  | [w] => w
  | w :: rest => w ++ sep ++ joinSep sep rest

/-! ## The `Grouping` expression-tree node (`src/unnamed/part_003`)

`Grouping.prototype.getWhere` renders a boolean combinator node to a pair of a
SQL string and an ordered bound-parameter list.  The items a grouping may hold
are: a subquery (`Query`, rendered via `new Sql(query).getSelect()`), another
`Grouping` or a `Condition`, a `Raw` fragment, a plain object (sugar for an
implicit AND of equality conditions), or a primitive value (rendered as a lone
`?` placeholder binding that value). -/

/-- Modelled from the spec: the `Condition` leaf node.  `Condition.js` is
required by `src/unnamed/part_003` but is not among the source files; per
§3/§4.2 of the spec a condition is a typed leaf `\x7b type, field?, value \x7d`
rendering to a fixed per-type SQL template: a comparison renders as
`column OP ?` binding one value, a null check renders as `column IS [NOT] NULL`
binding none, membership renders as `column IN (...)` binding the member list
(one placeholder per member, the renderer convention chosen here),
existence renders as `EXISTS (subquery-sql)` with the compiled
subquery's own values spliced in, and negation wraps the inner rendering with a
`NOT` prefix. -/
inductive Condition where
  | equalTo (field : String) (value : Val)
  | notEqualTo (field : String) (value : Val)
  | greaterThan (field : String) (value : Val)
  | lessThan (field : String) (value : Val)
  | isNull (field : String)
  | isNotNull (field : String)
  | inList (field : String) (values : List Val)
  | existsSub (sql : String) (values : List Val)
  | notCond (inner : Condition)
deriving DecidableEq, Repr

/-- Membership placeholders `column IN (?, ?, ...)`: one placeholder per member value (the renderer
convention where the membership list is spread into individual parameters). -/
def inPlaceholders (vs : List Val) : String :=
  joinSep ", " (vs.map fun _ => "?")

/-- Rendering of a `Condition` to SQL text and bound values (see `Condition`). -/
def renderCond : Condition → String × List Val
  | .equalTo f v => (f ++ " = ?", [v])
  | .notEqualTo f v => (f ++ " <> ?", [v])
  | .greaterThan f v => (f ++ " > ?", [v])
  | .lessThan f v => (f ++ " < ?", [v])
  | .isNull f => (f ++ " IS NULL", [])
  | .isNotNull f => (f ++ " IS NOT NULL", [])
  | .inList f vs => (f ++ " IN (" ++ inPlaceholders vs ++ ")", vs)
  | .existsSub sql vals => ("EXISTS (" ++ sql ++ ")", vals)
  | .notCond c =>
    let r := renderCond c
    ("NOT " ++ r.1, r.2)

/-- The grouping combinator type: `and` or `or`. -/
inductive GType where
  | and
  | or
deriving DecidableEq, Repr

mutual
/-- An item a `Grouping` value may hold (see `Grouping._getWhere`):
a primitive value, a `Raw` fragment (its verbatim SQL and values), a
`Condition`, a subquery (carried as its compiled select SQL and values, the
output of `new Sql(query).getSelect()` — `Sql.js` is not among the source
files, so the compiled pair is taken as given), a plain object (a list of
field/value pairs), or a nested `Grouping`. -/
inductive GItem where
  | prim (v : Val)
  | raw (sql : String) (values : List Val)
  | cond (c : Condition)
  | sub (sql : String) (values : List Val)
  | obj (pairs : List (String × Val))
  | grp (g : Grouping)

/-- The `Grouping` node `\x7b type, value \x7d`: `value` is a single item or an
ordered list of items (`getWhere` normalises a non-array to a one-item list). -/
inductive Grouping where
  | one (type : GType) (item : GItem)
  | many (type : GType) (items : List GItem)
end

/-- The tail of `Grouping.prototype.getWhere` after the per-item loop: a single
rendered item is returned without wrapping; otherwise the items are joined by
` AND ` / ` OR ` per the grouping type and wrapped in one pair of parentheses
(note that an empty item list therefore renders as the literal `()`). -/
def groupingCombine (type : GType) (wheres : List String) (values : List Val) :
    String × List Val :=
  match wheres with
  | [w] => (w, values)
  | _ =>
    let sep := match type with | .and => " AND " | .or => " OR "
    ("(" ++ joinSep sep wheres ++ ")", values)

/-- The plain-object branch of `Grouping.prototype._getWhere`: the source
builds a new and-Grouping over `entries.map(equalTo-Condition)`
and calls `getWhere` on it; this helper is that call computed out (each
equality condition renders as `field = ?` binding one value, and the item loop
concatenates in entry order).  `objGetWhere_spec` below proves it equal to
`Grouping.getWhere` of the constructed grouping. -/
def objGetWhere (pairs : List (String × Val)) : String × List Val :=
  groupingCombine .and (pairs.map fun p => p.1 ++ " = ?") (pairs.map fun p => p.2)

mutual
/-- The item renderer `Grouping.prototype._getWhere`: renders one item of the grouping value. -/
def igetWhere : GItem → String × List Val
  | .prim v => ("?", [v])
  | .raw sql values => (sql, values)
  | .cond c => renderCond c
  | .sub sql values => ("(" ++ sql ++ ")", values)
  | .obj pairs => objGetWhere pairs
  | .grp g => Grouping.getWhere g

/-- The item loop of `Grouping.prototype.getWhere`: renders each item in order,
collecting the SQL fragments and concatenating the value lists left to right. -/
def lgetWhere : List GItem → List String × List Val
  | [] => ([], [])
  | item :: rest =>
    let w := igetWhere item
    let r := lgetWhere rest
    (w.1 :: r.1, w.2 ++ r.2)

/-- The renderer `Grouping.prototype.getWhere`: normalises the value to a list, renders each
item, and combines (`groupingCombine`).  For a non-array value the normalised
one-item loop renders exactly that item. -/
def Grouping.getWhere : Grouping → String × List Val
  | .one t item =>
    let w := igetWhere item
    groupingCombine t [w.1] w.2
  | .many t items =>
    let r := lgetWhere items
    groupingCombine t r.1 r.2
end

/-! ### Placeholder/parameter correlation apparatus (claim C3)

The correlation invariant is compositional: it holds of a grouping's rendering
provided every opaque SQL fragment fed into the tree (a `Raw` fragment, a
compiled subquery, a compiled `EXISTS` subquery) itself carries as many `?`
placeholders as values, and no column name smuggles in a `?`.  `wf` states
that side condition; `substQ` substitutes the parameter list into the
placeholders left to right, and the `Inline` renderers say what the SQL would
look like with every value spliced directly where its placeholder sits, so
`substQ (sql, values) = inline` is exactly the claim's "the i-th placeholder
corresponds to the i-th parameter value". -/

/-- Printed form of a value for placeholder substitution. -/
def showVal : Val → String
  | .null => "NULL"
  | .i n => toString n
  | .s str => str

/-- Holds (`true`) when a column/field name contains no `?` placeholder character. -/
def noQ (s : String) : Bool := !(s.data.contains '?')

/-- Well-formedness of a condition's opaque parts: column names are
placeholder-free and a compiled `EXISTS` subquery is itself correlated. -/
def condWf : Condition → Bool
  | .equalTo f _ => noQ f
  | .notEqualTo f _ => noQ f
  | .greaterThan f _ => noQ f
  | .lessThan f _ => noQ f
  | .isNull f => noQ f
  | .isNotNull f => noQ f
  | .inList f _ => noQ f
  | .existsSub sql vals => countQ sql == vals.length
  | .notCond c => condWf c

mutual
/-- Well-formedness of the opaque parts of one grouping item. -/
def iwf : GItem → Bool
  | .prim _ => true
  | .raw sql values => countQ sql == values.length
  | .cond c => condWf c
  | .sub sql values => countQ sql == values.length
  | .obj pairs => pairs.all fun p => noQ p.1
  | .grp g => gwf g

/-- Well-formedness of every item in a list. -/
def lwf : List GItem → Bool
  | [] => true
  | item :: rest => iwf item && lwf rest

/-- Well-formedness of the opaque parts of a whole grouping tree. -/
def gwf : Grouping → Bool
  | .one _ item => iwf item
  | .many _ items => lwf items
end

/-- Left-to-right substitution of values into `?` placeholders (character
list level). -/
def substChars : List Char → List Val → List Char
  | [], _ => []
  | c :: rest, vs =>
    if c = '?' then
      match vs with
      | v :: vtl => (showVal v).data ++ substChars rest vtl
      | [] => c :: substChars rest []
    else
      c :: substChars rest vs

/-- Left-to-right substitution of values into `?` placeholders of a SQL
string. -/
def substQ (sql : String) (vs : List Val) : String := ⟨substChars sql.data vs⟩

/-- The condition's SQL with values spliced in place of their placeholders. -/
def condInline : Condition → String
  | .equalTo f v => f ++ " = " ++ showVal v
  | .notEqualTo f v => f ++ " <> " ++ showVal v
  | .greaterThan f v => f ++ " > " ++ showVal v
  | .lessThan f v => f ++ " < " ++ showVal v
  | .isNull f => f ++ " IS NULL"
  | .isNotNull f => f ++ " IS NOT NULL"
  | .inList f vs => f ++ " IN (" ++ joinSep ", " (vs.map showVal) ++ ")"
  | .existsSub sql vals => "EXISTS (" ++ substQ sql vals ++ ")"
  | .notCond c => "NOT " ++ condInline c

/-- The combine step of the inline rendering (same single-item shortcut and
joining/wrapping as `groupingCombine`, on SQL text alone). -/
def combineInline (type : GType) (wheres : List String) : String :=
  match wheres with
  | [w] => w
  | _ =>
    let sep := match type with | .and => " AND " | .or => " OR "
    "(" ++ joinSep sep wheres ++ ")"

mutual
/-- One item's SQL with values spliced in place of their placeholders. -/
def iInline : GItem → String
  | .prim v => showVal v
  | .raw sql values => substQ sql values
  | .cond c => condInline c
  | .sub sql values => "(" ++ substQ sql values ++ ")"
  | .obj pairs => combineInline .and (pairs.map fun p => p.1 ++ " = " ++ showVal p.2)
  | .grp g => gInline g

/-- Each item's inline SQL, in item order. -/
def lInline : List GItem → List String
  | [] => []
  | item :: rest => iInline item :: lInline rest

/-- A grouping's SQL with values spliced in place of their placeholders. -/
def gInline : Grouping → String
  | .one t item => combineInline t [iInline item]
  | .many t items => combineInline t (lInline items)
end

/-- The correlation invariant of claim C3 for one rendered fragment: the SQL
carries exactly one `?` per bound value, and substituting the values into the
placeholders left to right yields the fragment's inline rendering (so the i-th
placeholder corresponds to the i-th value). -/
def correlated (sql : String) (vs : List Val) (inl : String) : Prop :=
  countQ sql = vs.length ∧ substQ sql vs = inl

/-- A sample grouping exercising several item kinds, used to witness C3. -/
def sampleGrouping : Grouping :=
  .many .and
    [.prim (Val.i 5),
      .cond (.isNull "age"),
      .raw "a = ?" [Val.s "x"],
      .grp (.one .or (.obj [("id", Val.i 1), ("name", Val.s "n")]))]

/-! ## Join alias assignment (`Query.prototype._addWith`, src/Query.js)

`_addWith` assigns each child query `query.index = ++this.index` and
`query.alias = 't' + query.index`, then recurses into the child's own
`_prepareBuilder` (hence its own `_addWith`, whose counter is the child's own
`index` field, freshly set).  The parent's counter is advanced only by its own
direct children: increments made inside a child's subtree are invisible to the
parent's later children. -/

/-- The shape of a root query's attached child queries: each node is a child
query carrying its own attached children (`_with`). -/
inductive AQ where
  | mk (children : List AQ)

/-- A child query after `_addWith` ran: its assigned `index`, its assigned
alias string `t<index>`, and its recursively assigned children. -/
inductive TaggedAQ where
  | mk (index : Nat) (tAlias : String) (children : List TaggedAQ)

mutual
/-- The index/alias bookkeeping of `Query.prototype._addWith`: given the
parent's current counter (`this.index`), assigns each child in order
`idx := parentIndex + position`, alias `t<idx>`, recurses into the child's
subtree starting from the child's own counter `idx`, and returns the tagged
children together with the parent's final counter. -/
def addWith : List AQ → Nat → List TaggedAQ × Nat
  | [], parentIndex => ([], parentIndex)
  | c :: rest, parentIndex =>
    let idx := parentIndex + 1
    let tagged := addWithNode c idx
    let outer := addWith rest idx
    (tagged :: outer.1, outer.2)

/-- One child's assignment: its index and alias `t<idx>`, and its subtree
assigned from its own counter (which starts at its own just-set index). -/
def addWithNode : AQ → Nat → TaggedAQ
  | .mk cs, idx => .mk idx ("t" ++ toString idx) (addWith cs idx).1
end

mutual
/-- All child aliases of a tagged forest, parent before subtree, in order. -/
def taggedAliases : List TaggedAQ → List String
  | [] => []
  | t :: rest => taggedAliasesNode t ++ taggedAliases rest

/-- Aliases of one tagged child: its own, then its subtree's. -/
def taggedAliasesNode : TaggedAQ → List String
  | .mk _ a cs => a :: taggedAliases cs
end

mutual
/-- All child indexes of a tagged forest, parent before subtree, in order. -/
def taggedIndexes : List TaggedAQ → List Nat
  | [] => []
  | t :: rest => taggedIndexesNode t ++ taggedIndexes rest

/-- Indexes of one tagged child: its own, then its subtree's. -/
def taggedIndexesNode : TaggedAQ → List Nat
  | .mk i _ cs => i :: taggedIndexes cs
end

/-- Every alias of one compiled statement: the root's table name (the root
keeps `this.alias = model.table` from the constructor) followed by the child
aliases assigned by `_addWith` from the root's initial counter `0`. -/
def allAliases (table : String) (children : List AQ) : List String :=
  table :: taggedAliases (addWith children 0).1

mutual
/-- Chain shape: every query has at most one attached child — the shape of a
(possibly cyclic) join chain `A → B → A → ...`. -/
def isChain : List AQ → Bool
  | [] => true
  | [c] => isChainNode c
  | _ => false

/-- Chain shape of one node's subtree. -/
def isChainNode : AQ → Bool
  | .mk cs => isChain cs
end

mutual
/-- Depth of a join chain. -/
def chainLength : List AQ → Nat
  | [] => 0
  | c :: _ => chainLengthNode c + 1

/-- Depth below one node. -/
def chainLengthNode : AQ → Nat
  | .mk cs => chainLength cs
end

/-- Digit value of a decimal digit character. -/
def chVal (c : Char) : Nat := c.toNat - 48

/-- Parse a decimal digit string back to the number it denotes. -/
def parseDigits (cs : List Char) : Nat := cs.foldl (fun a c => a * 10 + chVal c) 0

/-! ## Row parsing / graph reconstruction (src/Query.js)

`Query.prototype._parseRows` splits each flat result row's `"alias.column"`
keys into per-alias scalar bags and feeds them to `_parseData`, which
deduplicates records through a per-query memo (`this._parsedData`, keyed by
the JavaScript property-key string of the identity value), pushes fresh
records onto `this._parsedRows`, and attaches child records to their parent
under the child's `_as` key.  Records are mutable JavaScript objects shared by
reference between the memo, the output list and parent attachments, so the
embedding stores records in an explicit store (`List Rec`) addressed by
numeric references; mutating the store entry is visible through every
reference.  Each query object's own memo/rows state lives in a `PState` tree
parallel to the query tree. -/

/-- A per-alias scalar bag (the `data[alias]` object of `_parseRows`). -/
abbrev Bag := List (String × Val)

/-- The JavaScript value held under a child's output key on a parent record.
`_parseData` stores either a single record (`leaf`) or, when the key was
already set, the fresh two-element array `[previousValue, newRecord]`
(`pair`) — note the previous value may itself be such an array. -/
inductive Att where
  | leaf (r : Nat)
  | pair (a : Att) (r : Nat)
deriving DecidableEq, Repr

/-- A reconstructed record: its scalar bag (`instanceData`), whether it was
forged into a typed model instance (`this._forge === false` keeps the plain
bag), and its child attachments keyed by each child's `_as`. -/
structure Rec where
  bag : Bag
  forged : Bool
  attached : List (String × Att)
deriving DecidableEq, Repr

/-- The per-query scalar options the parser and fetch consult. -/
structure QInfo where
  aliasName : String
  idField : String
  asKey : String
  forge : Bool
  required : Bool
  first : Bool
deriving DecidableEq, Repr

/-- A query object as the parser sees it: its options and its attached child
queries (`this._with`). -/
inductive QNode where
  | mk (info : QInfo) (children : List QNode)

/-- The query's options. -/
def QNode.info : QNode → QInfo
  | .mk i _ => i

/-- The query's attached child queries. -/
def QNode.children : QNode → List QNode
  | .mk _ cs => cs

/-- The mutable parse state of one query object: its `_parsedData` memo (id
property key → record reference), its `_parsedRows` (record references in
materialisation order) and the states of its child query objects. -/
inductive PState where
  | mk (parsedData : List (String × Nat)) (parsedRows : List Nat)
      (children : List PState)

/-- The memo of a parse state. -/
def PState.parsedData : PState → List (String × Nat)
  | .mk m _ _ => m

/-- The ordered output list (record references) of a parse state. -/
def PState.parsedRows : PState → List Nat
  | .mk _ r _ => r

mutual
/-- The pristine parse state of a query tree (`this._parsedData = {}`,
`this._parsedRows = []` from the constructor). -/
def initState : QNode → PState
  | .mk _ cs => .mk [] [] (initStates cs)

/-- Pristine states of a list of child query objects. -/
def initStates : List QNode → List PState
  | [] => []
  | q :: rest => initState q :: initStates rest
end

/-- Read a record from the store (out-of-range reads never occur in runs
produced by the parser; a dummy record is returned to stay total). -/
def getRec (store : List Rec) (r : Nat) : Rec :=
  store.getD r ⟨[], false, []⟩

/-- The attachment step of `_parseData`: on the parent record, if the child's
key is unset, set it to the single child record; otherwise replace it with the
two-element array `[previousValue, newRecord]`. -/
def attach (store : List Rec) (r : Nat) (key : String) (cref : Nat) :
    List Rec :=
  let rec0 := getRec store r
  let att := match lookupA rec0.attached key with
    | none => Att.leaf cref
    | some a => Att.pair a cref
  store.set r { rec0 with attached := setA rec0.attached key att }

/-- JavaScript property-key coercion of `this._parsedData[id]`: `undefined`
and `null` become the literal key strings, numbers and strings their printed
form. -/
def jsKey : Option Val → String
  | none => "undefined"
  | some .null => "null"
  | some (.i n) => toString n
  | some (.s s) => s

/-- The row test `Query.prototype._hasData`: some value of this query alias bag in this
row is non-null.  (An alias absent from the row is modelled as an empty bag,
which has no non-null value.) -/
def hasData (aliasName : String) (data : List (String × Bag)) : Bool :=
  ((lookupA data aliasName).getD []).any fun p => !(p.2 == Val.null)

mutual
/-- The record builder `Query.prototype._parseData` on one row, per-alias data: look the
identity value's property key up in this query's memo; if absent, materialise
a fresh record (appending it to the store, the memo and `_parsedRows`); then
recurse into each child query that has data in this row, attaching the child
record to this record under the child's `_as` key.  Returns the record
reference together with the updated state and store. -/
def parseData (node : QNode) (st : PState) (store : List Rec)
    (data : List (String × Bag)) : Nat × PState × List Rec :=
  match node, st with
  | .mk info cs, .mk memo rows csts =>
    let instanceData := (lookupA data info.aliasName).getD []
    let key := jsKey (lookupA instanceData info.idField)
    match lookupA memo key with
    | some r =>
      let res := parseChildren cs csts store data r
      (r, .mk memo rows res.1, res.2)
    | none =>
      let r := store.length
      let store1 := store ++ [⟨instanceData, info.forge, []⟩]
      let memo1 := setA memo key r
      let rows1 := rows ++ [r]
      let res := parseChildren cs csts store1 data r
      (r, .mk memo1 rows1 res.1, res.2)

/-- The child loop of `_parseData`: for each child with data in this row,
recurse and attach the child record to the parent record. -/
def parseChildren (qs : List QNode) (sts : List PState) (store : List Rec)
    (data : List (String × Bag)) (parentRef : Nat) : List PState × List Rec :=
  match qs, sts with
  | [], _ => ([], store)
  | _ :: _, [] => ([], store)
  | q :: qrest, s :: srest =>
    if hasData (QNode.info q).aliasName data then
      let res := parseData q s store data
      let store2 := attach res.2.2 parentRef (QNode.info q).asKey res.1
      let rest := parseChildren qrest srest store2 data parentRef
      (res.2.1 :: rest.1, rest.2)
    else
      let rest := parseChildren qrest srest store data parentRef
      (s :: rest.1, rest.2)
end

/-- The split `column.split(...)` on the character level: split a string at every
`'.'` (JavaScript `String.prototype.split` with a one-character separator). -/
def splitDotAux : List Char → List Char → List String
  | [], acc => [String.mk acc.reverse]
  | c :: rest, acc =>
    if c = '.' then String.mk acc.reverse :: splitDotAux rest []
    else splitDotAux rest (c :: acc)

/-- The split `column.split(...)` of a dotted column key. -/
def jsSplitDot (s : String) : List String := splitDotAux s.data []

/-- The per-row reduce of `_parseRows`: split each `"alias.column"` key of the
flat row into the per-alias scalar bag (`column.split('.')`; a key with no dot
yields the property key `"undefined"` for the field part, as in JavaScript,
where `pair[1]` is `undefined`). -/
def splitRow (row : List (String × Val)) : List (String × Bag) :=
  row.foldl
    (fun data col =>
      let parts := jsSplitDot col.1
      let aliasPart := parts.headD ""
      let fieldPart := (parts.drop 1).headD "undefined"
      let bag := (lookupA data aliasPart).getD []
      setA data aliasPart (setA bag fieldPart col.2))
    []

/-- The row loop `Query.prototype._parseRows`: parse each flat row in order through
`_parseData`; the root's output list is the final state's `parsedRows`. -/
def parseRows (node : QNode) (st : PState) (store : List Rec)
    (rows : List (List (String × Val))) : PState × List Rec :=
  match rows with
  | [] => (st, store)
  | row :: rest =>
    let res := parseData node st store (splitRow row)
    parseRows node res.2.1 res.2.2 rest

/-- The error kinds of the fetch/count paths modelled here.  Only the
operation errors wrap an underlying driver error as their cause; the
require-flag errors (`RowNotFoundError` / `RowsNotFoundError`) are
constructed by `this._throw(name)` with no argument and carry no cause. -/
inductive KnormError where
  | fetchError (cause : Nat)
  | rowNotFoundError
  | rowsNotFoundError
  | childFetchError
  | countError (cause : Nat)
deriving DecidableEq, Repr

mutual
/-- The require check `Query.prototype._maybeThrowFetchRequireErrors`: if this query
`_require` is set, throw — the plural variant for a child query, else the
singular variant when `_first` is set and the plural one otherwise; if not,
recurse into the child queries in order and propagate the first throw. -/
def maybeThrowFetchRequireErrors (node : QNode) (isChild : Bool) :
    Option KnormError :=
  match node with
  | .mk info cs =>
    if info.required then
      some (if isChild then .rowsNotFoundError
        else if info.first then .rowNotFoundError else .rowsNotFoundError)
    else maybeThrowChildren cs

/-- The recursion of `_maybeThrowFetchRequireErrors` over `this._with`. -/
def maybeThrowChildren : List QNode → Option KnormError
  | [] => none
  | q :: rest =>
    match maybeThrowFetchRequireErrors q true with
    | some e => some e
    | none => maybeThrowChildren rest
end

/-- The resolved value of a fetch. -/
inductive FetchResult where
  | fetchNull
  | fetchEmpty
  | records (refs : List Nat) (store : List Rec)
  | record (ref : Nat) (store : List Rec)
deriving DecidableEq, Repr

/-- The fetch `Query.prototype.fetch`, from the point where the builder `select`
resolved with `rows` (driver rejection would instead surface as a
`FetchError` wrapping the driver error): a child query cannot be fetched;
zero rows consult `_maybeThrowFetchRequireErrors` and otherwise resolve with
`null` (under `first`) or the empty list; any rows are parsed and resolve
with the parsed list, or its first record under `first`. -/
def fetch (node : QNode) (isChild : Bool)
    (rows : List (List (String × Val))) : Except KnormError FetchResult :=
  if isChild then .error .childFetchError
  else if rows.length = 0 then
    match maybeThrowFetchRequireErrors node false with
    | some e => .error e
    | none => .ok (if (QNode.info node).first then .fetchNull else .fetchEmpty)
  else
    let res := parseRows node (initState node) [] rows
    let parsed := PState.parsedRows res.1
    .ok (if (QNode.info node).first then .record (parsed.headD 0) res.2
      else .records parsed res.2)

mutual
/-- Whether `_require` is set anywhere in a query forest. -/
def anyRequire : List QNode → Bool
  | [] => false
  | q :: rest => anyRequireNode q || anyRequire rest

/-- Whether `_require` is set on this query or anywhere below it. -/
def anyRequireNode : QNode → Bool
  | .mk info cs => info.required || anyRequire cs
end

/-! ### Concrete query shapes and expected parse results (claims C1, C4)

The spec's running scenario: model `User` (alias `user`, identity `id`)
optionally joined to `Image` (alias `image`, identity `id`, output key
`image`). -/

/-- A root query with no children (claim C4). -/
def rootOnly : QNode := .mk ⟨"user", "id", "user", true, false, false⟩ []

/-- The `Image` child query. -/
def childNode : QNode := .mk ⟨"image", "id", "image", true, false, false⟩ []

/-- A root query with the `Image` child attached (claim C1). -/
def rootWithChild : QNode :=
  .mk ⟨"user", "id", "user", true, false, false⟩ [childNode]

/-- A flat result row for a parent-only fetch, with identity value `v`. -/
def pRow (v : String) : List (String × Val) :=
  [("user.id", Val.s v), ("user.name", Val.s "A")]

/-- The parent's scalar bag after splitting `pRow v`. -/
def pBag (v : String) : Bag := [("id", Val.s v), ("name", Val.s "A")]

/-- A flat result row of the joined fetch: fixed parent `u1`; the child part
carries image id `c` for a matched child row, or all-null child columns
(`none`) for a row where the left join matched no child. -/
def cRow (c : Option String) : List (String × Val) :=
  [("user.id", Val.s "u1"), ("user.name", Val.s "A"),
    ("image.id", match c with | none => Val.null | some s => Val.s s),
    ("image.userId", match c with | none => Val.null | some _ => Val.s "u1")]

/-- The child's scalar bag for a matched child row with image id `c`. -/
def iBag (c : String) : Bag := [("id", Val.s c), ("userId", Val.s "u1")]

/-- First-seen-order deduplication with an accumulator (the shape
`_parsedRows` takes over duplicate identity values). -/
def dedupFold (acc : List String) (l : List String) : List String :=
  l.foldl (fun acc v => if acc.contains v then acc else acc ++ [v]) acc

/-- First-seen-order deduplication of a list of identity values. -/
def dedupFirstSeen (l : List String) : List String := dedupFold [] l

/-- The memo an in-order materialisation produces: value `v` at position `i`
maps to record reference `start + i`. -/
def memoOf (start : Nat) : List String → List (String × Nat)
  | [] => []
  | v :: rest => (v, start) :: memoOf (start + 1) rest

/-- The expected parse state of `rootOnly` after rows whose first-seen
distinct identity values are `d`. -/
def c4State (d : List String) : PState :=
  .mk (memoOf 0 d) (List.range' 0 d.length) []

/-- The expected store after parsing parent-only rows with first-seen
distinct identity values `d`. -/
def c4Store (d : List String) : List Rec :=
  d.map fun v => ⟨pBag v, true, []⟩

/-- The attachment value `_parseData` builds after `n` matched child rows
whose records got references `1 ... n`: one record after the first, and each
further row wraps the previous value in the fresh two-element array
`[previousValue, newRecord]`, yielding a left-nested pair tree. -/
def leftNest : Nat → Att
  | 0 => .leaf 1
  | 1 => .leaf 1
  | n + 2 => .pair (leftNest (n + 1)) (n + 2)

/-- The expected store after the joined rows whose matched child ids are `m`
(in row order): the root record at reference 0 with the left-nested
attachment under key `"image"`, then one child record per matched id. -/
def c1Store (m : List String) : List Rec :=
  ⟨pBag "u1", true,
      match m with
      | [] => []
      | _ => [("image", leftNest m.length)]⟩ ::
    m.map fun c => ⟨iBag c, true, []⟩

/-- The expected parse state of `rootWithChild` after the joined rows whose
matched child ids are `m`. -/
def c1State (m : List String) : PState :=
  .mk [("u1", 0)] [0] [.mk (memoOf 1 m) (List.range' 1 m.length) []]

/-- The JavaScript value held at a child key read as a flat array of records:
a `leaf` is a single record (not an array); a `pair` is the two-element array
`[fst, snd]`, which is a flat array of records exactly when `fst` is itself a
record and not an array. -/
def attElems : Att → Option (List Nat)
  | .leaf _ => none
  | .pair (.leaf r1) r2 => some [r1, r2]
  | .pair (.pair _ _) _ => none

/-- A root query with `require` unset whose single child has `require` set
(the counterexample shape for claim C5). -/
def rootChildRequire : QNode :=
  .mk ⟨"user", "id", "user", true, false, false⟩
    [.mk ⟨"image", "id", "image", true, true, false⟩ []]

/-- A root query with both `require` and `first` set and no children. -/
def reqFirstRoot : QNode := .mk ⟨"user", "id", "user", true, true, true⟩ []

/-! ## Count (`Query.prototype.count`, src/Query.js) -/

/-- JavaScript `parseInt` restricted to the decimal digit strings a driver returns in
the `count` column of a COUNT row. -/
def jsParseInt (s : String) : Int := Int.ofNat (parseDigits s.data)

/-- The count `Query.prototype.count`, from the builder call onward: a driver rejection
is wrapped in a `CountError` carrying the driver error as its cause;
otherwise the single count row's `count` column is parsed with `parseInt` and
returned.  A COUNT statement always yields one row, so a count matching zero
rows resolves with `0`.  The query's `_require` flag is passed here to record
that the source never consults it — there is no require check anywhere in
`count`. -/
def count (required : Bool) (res : Except Nat String) : Except KnormError Int :=
  match res with
  | .error e => .error (.countError e)
  | .ok c => .ok (jsParseInt c)

/-! ## save / update (src/Query.js)

`Query.prototype.update` validates the instance (`new this.model(data)` for a
plain object — the Model constructor is not under src/ and is modelled from
the spec, §6: "a constructor that builds a typed record from a scalar bag",
i.e. the instance carries the data bag's fields), reads its identity value,
and when that value is defined adds `where({ [idField]: id })` before
compiling.  `Query.prototype.save` dispatches on
`data[this.model.idField] === undefined`. -/

/-- The slice of a query that `save`/`update` dispatching touches: its
model's identity field name and its accumulated `_where` entries
(field/value pairs, conjoined by the builder). -/
structure WQuery where
  idField : String
  wheres : List (String × Val)
deriving DecidableEq, Repr

/-- Modelled from the spec: the Model constructor (`Model.js` is not under
src/) builds a typed record from a scalar bag (§6); its field values are the
bag's. -/
def instanceOf (data : Bag) : Bag := data

/-- The pre-compilation phase of `Query.prototype.update`: read the validated
instance's identity value; when defined, push the identity equality onto the
query's where clauses (at the end, as `where()` appends); when undefined,
leave the where clauses untouched. -/
def updatePrepare (q : WQuery) (data : Bag) : WQuery :=
  match lookupA (instanceOf data) q.idField with
  | none => q
  | some idv => { q with wheres := q.wheres ++ [(q.idField, idv)] }

/-- Which operation `save` performed, with the query it runs on. -/
inductive SaveCall where
  | ins (q : WQuery) (data : Bag)
  | upd (q : WQuery) (data : Bag)
deriving DecidableEq, Repr

/-- The dispatch `Query.prototype.save`: `insert(data)` when `data[this.model.idField]`
is undefined, `update(data)` otherwise (whose pre-compilation phase is
`updatePrepare`). -/
def save (q : WQuery) (data : Bag) : SaveCall :=
  if lookupA data q.idField = none then .ins q data
  else .upd (updatePrepare q data) data

/-- SQL satisfaction of one where-clause entry by a row:
`_addWhereOrHaving` compiles `{field, value}` to `whereNull(column)` when the
value is null (satisfied when the row's column is NULL) and to
`where(column, value)` otherwise (satisfied when the row's column equals the
non-null value); both cases are the row's column being equal to the clause
value. -/
def clauseSat (row : Bag) (cl : String × Val) : Bool :=
  (lookupA row cl.1).getD Val.null == cl.2

/-- A row matches a where-clause list when it satisfies every entry (the
builder conjoins successive `where` calls). -/
def matchesAll (wheres : List (String × Val)) (row : Bag) : Bool :=
  wheres.all (clauseSat row)

/-- Sample query for the save/update witnesses. -/
def sampleWQuery : WQuery := ⟨"id", [("name", Val.s "n")]⟩

/-! ## Theorems -/

theorem lookupA_setA_self {α : Type} (l : List (String × α)) (key : String) (v : α) :
    lookupA (setA l key v) key = some v := by
  induction l with
  | nil => simp [setA, lookupA]
  | cons h rest ih =>
    by_cases hk : h.1 = key
    · simp [setA, hk, lookupA]
    · simp [setA, hk, lookupA, ih]

theorem lookupA_setA_other {α : Type} (l : List (String × α)) (key k : String)
    (v : α) (h : k ≠ key) : lookupA (setA l key v) k = lookupA l k := by
  induction l with
  | nil =>
    simp only [setA, lookupA]
    rw [if_neg (fun hh => h hh.symm)]
  | cons hd rest ih =>
    by_cases hk : hd.1 = key
    · have hkk : ¬key = k := fun hh => h hh.symm
      simp [setA, hk, lookupA, hkk]
    · simp only [setA, if_neg hk, lookupA]
      by_cases hkk : hd.1 = k
      · simp [hkk]
      · simp [hkk, ih]

/-- The computed-out object-sugar branch agrees with `getWhere` of the
grouping of equality conditions that the source constructs. -/
theorem objGetWhere_spec (pairs : List (String × Val)) :
    objGetWhere pairs =
      Grouping.getWhere
        (.many .and (pairs.map fun p => .cond (.equalTo p.1 p.2))) := by
  have h : ∀ l : List (String × Val),
      lgetWhere (l.map fun p => GItem.cond (.equalTo p.1 p.2)) =
        (l.map (fun p => p.1 ++ " = ?"), l.map fun p => p.2) := by
    intro l
    induction l with
    | nil => simp [lgetWhere]
    | cons hd tl ih => simp [lgetWhere, ih, igetWhere, renderCond]
  simp [Grouping.getWhere, h, objGetWhere]

/-- The item loop renders items independently: the collected SQL fragments are
the items' renderings in order, and the value list is their concatenation in
item order. -/
theorem lgetWhere_eq (items : List GItem) :
    lgetWhere items =
      (items.map fun item => (igetWhere item).1,
       items.flatMap fun item => (igetWhere item).2) := by
  induction items with
  | nil => simp [lgetWhere]
  | cons hd tl ih => simp [lgetWhere, ih]

/-- C7: a Grouping holding exactly one item (whether as a bare value or as a
one-element list) renders as exactly that item's own rendering — same SQL, same
values, no wrapping parentheses added — while a Grouping of two or more items
renders as the items' SQL fragments joined by " AND " or " OR " according to
the grouping's type, wrapped in exactly one added pair of parentheses, with the
items' value lists concatenated in item order. -/
theorem c7_single_vs_multi_rendering (t : GType) (item : GItem)
    (items : List GItem) (h : 2 ≤ items.length) :
    Grouping.getWhere (.one t item) = igetWhere item ∧
    Grouping.getWhere (.many t [item]) = igetWhere item ∧
    Grouping.getWhere (.many t items) =
      ("(" ++ joinSep (match t with | .and => " AND " | .or => " OR ")
          (items.map fun i => (igetWhere i).1) ++ ")",
        items.flatMap fun i => (igetWhere i).2) := by
  refine ⟨rfl, ?_, ?_⟩
  · simp [Grouping.getWhere, lgetWhere, groupingCombine]
  · match items, h with
    | a :: b :: rest, _ =>
      simp [Grouping.getWhere, lgetWhere_eq, groupingCombine]

/-- Witness for C7 at a concrete two-item AND grouping. -/
theorem c7_witness :
    2 ≤ ([GItem.prim (Val.i 1), GItem.prim Val.null] : List GItem).length ∧
    Grouping.getWhere (.many .and [GItem.prim (Val.i 1), GItem.prim Val.null]) =
      ("(? AND ?)", [Val.i 1, Val.null]) := by
  constructor
  · decide
  · rw [(c7_single_vs_multi_rendering .and (.prim Val.null)
      [GItem.prim (Val.i 1), GItem.prim Val.null] (by decide)).2.2]
    rfl

/-- C8 counterexample: rendering the empty-list Grouping is not a no-op — the
claim says it contributes no SQL text, but `getWhere` falls through the
single-item shortcut, joins the empty fragment list to the empty string, and
wraps it, producing the non-empty SQL text "()". -/
theorem c8_empty_grouping_counterexample :
    Grouping.getWhere (.many .and []) = ("()", []) ∧
    (Grouping.getWhere (.many .and [])).1 ≠ "" := by
  constructor
  · rfl
  · decide

/-- C8 amended: rendering a Grouping whose value is an empty list contributes
no parameter values, but it does contribute SQL text, namely the literal
"()" (an empty parenthesised group), for either grouping type. -/
theorem c8_empty_grouping_amended (t : GType) :
    Grouping.getWhere (.many t []) = ("()", []) := by
  cases t <;> rfl

theorem countQ_append (a b : String) : countQ (a ++ b) = countQ a + countQ b := by
  simp [countQ, String.data_append, List.count_append]

theorem countQ_of_noQ {s : String} (h : noQ s = true) : countQ s = 0 := by
  simp only [noQ, Bool.not_eq_eq_eq_not, Bool.not_true] at h
  refine List.count_eq_zero.mpr ?_
  simpa using h

theorem substChars_cons_q (rest : List Char) (v : Val) (vs : List Val) :
    substChars ('?' :: rest) (v :: vs) = (showVal v).data ++ substChars rest vs := by
  simp [substChars]

theorem substChars_cons_ne (c : Char) (hc : ¬c = '?') (rest : List Char)
    (vs : List Val) : substChars (c :: rest) vs = c :: substChars rest vs := by
  cases vs <;> simp [substChars, hc]

theorem substChars_of_countZero (cs : List Char) (vs : List Val)
    (h : cs.count '?' = 0) : substChars cs vs = cs := by
  induction cs generalizing vs with
  | nil => simp [substChars]
  | cons c rest ih =>
    have hc : ¬c = '?' := by
      intro hh
      subst hh
      simp [List.count_cons] at h
    have htl : rest.count '?' = 0 := by simpa [List.count_cons, hc] using h
    rw [substChars_cons_ne c hc, ih vs htl]

theorem substChars_append (a b : List Char) (va vb : List Val)
    (h : a.count '?' = va.length) :
    substChars (a ++ b) (va ++ vb) = substChars a va ++ substChars b vb := by
  induction a generalizing va with
  | nil =>
    have hva : va = [] := List.length_eq_zero.mp (by simpa using h.symm)
    subst hva
    simp [substChars]
  | cons c rest ih =>
    by_cases hc : c = '?'
    · subst hc
      cases va with
      | nil => simp [List.count_cons] at h
      | cons v vtl =>
        have htl : rest.count '?' = vtl.length := by
          simpa [List.count_cons] using h
        have h1 : ('?' :: rest) ++ b = '?' :: (rest ++ b) := rfl
        have h2 : (v :: vtl) ++ vb = v :: (vtl ++ vb) := rfl
        rw [h1, h2, substChars_cons_q, substChars_cons_q, ih vtl htl,
          List.append_assoc]
    · have htl : rest.count '?' = va.length := by
        simpa [List.count_cons, hc] using h
      have h1 : (c :: rest) ++ b = c :: (rest ++ b) := rfl
      rw [h1, substChars_cons_ne c hc, substChars_cons_ne c hc, ih va htl]
      rfl

theorem string_mk_data (b : String) : String.mk b.data = b := rfl

theorem substQ_of_countZero (s : String) (vs : List Val) (h : countQ s = 0) :
    substQ s vs = s := by
  show String.mk (substChars s.data vs) = s
  rw [substChars_of_countZero s.data vs h]

theorem substQ_append (a b : String) (va vb : List Val)
    (h : countQ a = va.length) :
    substQ (a ++ b) (va ++ vb) = substQ a va ++ substQ b vb := by
  show String.mk (substChars (a ++ b).data (va ++ vb)) = _
  rw [String.data_append, substChars_append a.data b.data va vb h]
  rfl

theorem countQ_q : countQ "?" = 1 := rfl

theorem joinSep_cons₂ (sep w v : String) (rest : List String) :
    joinSep sep (w :: v :: rest) = w ++ sep ++ joinSep sep (v :: rest) := rfl

theorem substQ_q (v : Val) : substQ "?" [v] = showVal v := by
  show String.mk (substChars ['?'] [v]) = showVal v
  rw [substChars_cons_q]
  simp [substChars]

theorem substQ_append_q (pre : String) (v : Val) (hp : countQ pre = 0) :
    substQ (pre ++ "?") [v] = pre ++ showVal v := by
  have h1 : ([v] : List Val) = [] ++ [v] := rfl
  rw [h1, substQ_append pre "?" [] [v] (by simpa using hp),
    substQ_of_countZero pre [] hp, substQ_q]

/-- Correlation of a fragment of the form `pre ++ sql ++ post` where `pre` and
`post` are placeholder-free and `sql` is correlated with `vs`. -/
theorem wrap_correl (pre post sql : String) (vs : List Val)
    (hpre : countQ pre = 0) (hpost : countQ post = 0)
    (hsql : countQ sql = vs.length) :
    correlated (pre ++ sql ++ post) vs (pre ++ substQ sql vs ++ post) := by
  constructor
  · rw [String.append_assoc, countQ_append, countQ_append, hpre, hpost, hsql]
    omega
  · rw [String.append_assoc]
    have hstep := substQ_append pre (sql ++ post) [] vs (by simpa using hpre)
    simp only [List.nil_append] at hstep
    rw [hstep, substQ_of_countZero pre [] hpre]
    have hstep2 := substQ_append sql post vs [] hsql
    simp only [List.append_nil] at hstep2
    rw [hstep2, substQ_of_countZero post [] hpost, String.append_assoc]

/-- Correlation of a comparison template `field ++ op ++ "?"` binding one
value, for a placeholder-free field and operator text. -/
theorem render_comparison_correl (f opq op : String) (v : Val)
    (hf : noQ f = true) (hsplit : opq = op ++ "?") (hop : countQ op = 0) :
    correlated (f ++ opq) [v] (f ++ op ++ showVal v) := by
  subst hsplit
  have hfo : countQ (f ++ op) = 0 := by
    rw [countQ_append, countQ_of_noQ hf, hop]
  constructor
  · rw [← String.append_assoc, countQ_append, hfo, countQ_q]
    simp
  · rw [← String.append_assoc, substQ_append_q (f ++ op) v hfo]

/-- Correlation of a parameterless template over a placeholder-free field. -/
theorem render_nullcheck_correl (f tail : String) (hf : noQ f = true)
    (htail : countQ tail = 0) :
    correlated (f ++ tail) [] (f ++ tail) := by
  have hft : countQ (f ++ tail) = 0 := by
    rw [countQ_append, countQ_of_noQ hf, htail]
  exact ⟨by simpa using hft, substQ_of_countZero _ [] hft⟩

/-- The joined rendering of a nonempty list of correlated fragments is
correlated, for a placeholder-free separator. -/
theorem joinSep_correl (sep : String) (hsep : countQ sep = 0)
    (ts : List (String × List Val × String))
    (h : ∀ x ∈ ts, correlated x.1 x.2.1 x.2.2) (hne : ts ≠ []) :
    correlated (joinSep sep (ts.map fun x => x.1))
      (ts.flatMap fun x => x.2.1) (joinSep sep (ts.map fun x => x.2.2)) := by
  induction ts with
  | nil => cases hne rfl
  | cons x rest ih =>
    cases rest with
    | nil =>
      have hx := h x (by simp)
      simpa [joinSep] using hx
    | cons y rest2 =>
      have hx := h x (by simp)
      have ihh := ih (fun z hz => h z (by simp [hz])) (by simp)
      simp only [List.map_cons, List.flatMap_cons] at ihh ⊢
      rw [joinSep_cons₂, joinSep_cons₂]
      constructor
      · rw [countQ_append, countQ_append, hsep, hx.1, ihh.1]
        simp [List.length_append]
      · have ha : countQ (x.1 ++ sep) = x.2.1.length := by
          rw [countQ_append, hsep, hx.1]
          omega
        rw [substQ_append (x.1 ++ sep) _ x.2.1 _ ha]
        have hstep := substQ_append x.1 sep x.2.1 [] hx.1
        simp only [List.append_nil] at hstep
        rw [hstep, substQ_of_countZero sep [] hsep, hx.2, ihh.2]

theorem flatMap_q_singletons (vs : List Val) :
    ((vs.map fun w => ("?", ([w], showVal w))).flatMap fun x => x.2.1) = vs := by
  induction vs with
  | nil => rfl
  | cons v tl ih => simpa using ih

/-- The spread membership placeholders correlate with the member values. -/
theorem inPlaceholders_correl (vs : List Val) :
    correlated (inPlaceholders vs) vs (joinSep ", " (vs.map showVal)) := by
  cases vs with
  | nil => exact ⟨rfl, rfl⟩
  | cons v tl =>
    have hts : ∀ x ∈ (v :: tl).map fun w => ("?", ([w], showVal w)),
        correlated x.1 x.2.1 x.2.2 := by
      intro x hx
      obtain ⟨w, _, rfl⟩ := List.mem_map.mp hx
      exact ⟨countQ_q, substQ_q w⟩
    have hj := joinSep_correl ", " rfl ((v :: tl).map fun w => ("?", ([w], showVal w)))
      hts (by simp)
    have hmap1 : (((v :: tl).map fun w => ("?", ([w], showVal w))).map fun x => x.1) =
        (v :: tl).map fun _ => "?" := by
      rw [List.map_map]
      rfl
    have hmap3 : (((v :: tl).map fun w => ("?", ([w], showVal w))).map fun x => x.2.2) =
        (v :: tl).map showVal := by
      rw [List.map_map]
      rfl
    rw [hmap1, flatMap_q_singletons, hmap3] at hj
    exact hj

/-- Correlation for the renderings of the `Condition` templates. -/
theorem cond_correl (c : Condition) (h : condWf c = true) :
    correlated (renderCond c).1 (renderCond c).2 (condInline c) := by
  induction c with
  | equalTo f v => exact render_comparison_correl f " = ?" " = " v h rfl rfl
  | notEqualTo f v => exact render_comparison_correl f " <> ?" " <> " v h rfl rfl
  | greaterThan f v => exact render_comparison_correl f " > ?" " > " v h rfl rfl
  | lessThan f v => exact render_comparison_correl f " < ?" " < " v h rfl rfl
  | isNull f => exact render_nullcheck_correl f " IS NULL" h rfl
  | isNotNull f => exact render_nullcheck_correl f " IS NOT NULL" h rfl
  | inList f vs =>
    have hin := inPlaceholders_correl vs
    have hw := wrap_correl (f ++ " IN (") ")" (inPlaceholders vs) vs
      (by rw [countQ_append, countQ_of_noQ h]; rfl) rfl hin.1
    rw [hin.2] at hw
    simpa [renderCond, condInline, String.append_assoc] using hw
  | existsSub sql vals =>
    have hsql : countQ sql = vals.length := by simpa [condWf] using h
    have hw := wrap_correl "EXISTS (" ")" sql vals rfl rfl hsql
    simpa [renderCond, condInline, String.append_assoc] using hw
  | notCond c ih =>
    have hc := ih (by simpa [condWf] using h)
    constructor
    · simp only [renderCond, countQ_append]
      rw [hc.1, show countQ "NOT " = 0 from rfl]
      omega
    · simp only [renderCond, condInline]
      have hstep := substQ_append "NOT " (renderCond c).1 [] (renderCond c).2 rfl
      simp only [List.nil_append] at hstep
      rw [hstep, substQ_of_countZero "NOT " [] rfl, hc.2]

theorem flatMap_obj_singletons (pairs : List (String × Val)) :
    ((pairs.map fun p => (p.1 ++ " = ?", ([p.2], p.1 ++ " = " ++ showVal p.2))).flatMap
      fun x => x.2.1) = pairs.map fun p => p.2 := by
  induction pairs with
  | nil => rfl
  | cons p tl ih => simpa using ih

theorem flatMap_item_triples (items : List GItem) :
    ((items.map fun i => ((igetWhere i).1, ((igetWhere i).2, iInline i))).flatMap
      fun x => x.2.1) = items.flatMap fun i => (igetWhere i).2 := by
  induction items with
  | nil => rfl
  | cons hd tl ih => simpa using ih

theorem lInline_eq (items : List GItem) : lInline items = items.map iInline := by
  induction items with
  | nil => rfl
  | cons hd tl ih => simp [lInline, ih]

/-- The combine step `groupingCombine` preserves correlation: the single-item shortcut returns
an already-correlated fragment, and the joined-and-wrapped form is correlated
because the separators and parentheses are placeholder-free. -/
theorem combine_correl (t : GType) (ts : List (String × List Val × String))
    (h : ∀ x ∈ ts, correlated x.1 x.2.1 x.2.2) :
    correlated (groupingCombine t (ts.map fun x => x.1) (ts.flatMap fun x => x.2.1)).1
      (groupingCombine t (ts.map fun x => x.1) (ts.flatMap fun x => x.2.1)).2
      (combineInline t (ts.map fun x => x.2.2)) := by
  cases ts with
  | nil => cases t <;> exact ⟨rfl, rfl⟩
  | cons x rest =>
    cases rest with
    | nil =>
      have hx := h x (by simp)
      simpa [groupingCombine, combineInline] using hx
    | cons y rest2 =>
      have hsep : countQ (match t with | GType.and => " AND " | GType.or => " OR ") = 0 := by
        cases t <;> rfl
      have hj := joinSep_correl _ hsep (x :: y :: rest2) h (by simp)
      have hw := wrap_correl "(" ")"
        (joinSep _ ((x :: y :: rest2).map fun z => z.1))
        ((x :: y :: rest2).flatMap fun z => z.2.1) rfl rfl hj.1
      rw [hj.2] at hw
      simpa [groupingCombine, combineInline, String.append_assoc] using hw

mutual

theorem item_correl (i : GItem) (h : iwf i = true) :
    correlated (igetWhere i).1 (igetWhere i).2 (iInline i) := by
  cases i with
  | prim v => exact ⟨countQ_q, substQ_q v⟩
  | raw sql values =>
    refine ⟨?_, rfl⟩
    simpa [iwf] using h
  | cond c => exact cond_correl c (by simpa [iwf] using h)
  | sub sql values =>
    have hsql : countQ sql = values.length := by simpa [iwf] using h
    have hw := wrap_correl "(" ")" sql values rfl rfl hsql
    simpa [igetWhere, iInline, String.append_assoc] using hw
  | obj pairs =>
    have hall : ∀ p ∈ pairs, noQ p.1 = true := by
      simpa [iwf, List.all_eq_true] using h
    have hts : ∀ x ∈ pairs.map fun p =>
        (p.1 ++ " = ?", ([p.2], p.1 ++ " = " ++ showVal p.2)),
        correlated x.1 x.2.1 x.2.2 := by
      intro x hx
      obtain ⟨p, hp, rfl⟩ := List.mem_map.mp hx
      exact render_comparison_correl p.1 " = ?" " = " p.2 (hall p hp) rfl rfl
    have hc := combine_correl .and
      (pairs.map fun p => (p.1 ++ " = ?", ([p.2], p.1 ++ " = " ++ showVal p.2))) hts
    rw [List.map_map, List.map_map, flatMap_obj_singletons] at hc
    simpa [igetWhere, objGetWhere, iInline, Function.comp] using hc
  | grp g => exact grp_correl g (by simpa [iwf] using h)

theorem list_correl (l : List GItem) (h : lwf l = true) :
    ∀ i ∈ l, correlated (igetWhere i).1 (igetWhere i).2 (iInline i) := by
  cases l with
  | nil =>
    intro i hi
    cases hi
  | cons hd tl =>
    have hh : iwf hd = true ∧ lwf tl = true := by
      simpa [lwf, Bool.and_eq_true] using h
    intro i hi
    rcases List.mem_cons.mp hi with rfl | hmem
    · exact item_correl i hh.1
    · exact list_correl tl hh.2 i hmem

theorem grp_correl (g : Grouping) (h : gwf g = true) :
    correlated (Grouping.getWhere g).1 (Grouping.getWhere g).2 (gInline g) := by
  cases g with
  | one t item =>
    have hi := item_correl item (by simpa [gwf] using h)
    simpa [Grouping.getWhere, groupingCombine, gInline, combineInline] using hi
  | many t items =>
    have hl := list_correl items (by simpa [gwf] using h)
    have hts : ∀ x ∈ items.map fun i => ((igetWhere i).1, ((igetWhere i).2, iInline i)),
        correlated x.1 x.2.1 x.2.2 := by
      intro x hx
      obtain ⟨i, hi, rfl⟩ := List.mem_map.mp hx
      exact hl i hi
    have hc := combine_correl t
      (items.map fun i => ((igetWhere i).1, ((igetWhere i).2, iInline i))) hts
    rw [List.map_map, List.map_map, flatMap_item_triples] at hc
    simpa [Grouping.getWhere, lgetWhere_eq, gInline, lInline_eq, Function.comp] using hc

end

/-- C3: for every Grouping (whose opaque fragments — raw SQL, compiled
subqueries — are themselves placeholder/value correlated, and whose column
names are placeholder-free, `gwf`), the rendered SQL and rendered parameter
array are positionally correlated: the number of `?` placeholders equals the
length of the parameter array, and substituting the parameters into the
placeholders left to right yields exactly the inline rendering in which each
value sits where its placeholder sat — child renderings' parameter lists are
concatenated in child order and never reordered. -/
theorem c3_grouping_placeholder_correlation (g : Grouping) (h : gwf g = true) :
    countQ (Grouping.getWhere g).1 = (Grouping.getWhere g).2.length ∧
    substQ (Grouping.getWhere g).1 (Grouping.getWhere g).2 = gInline g :=
  grp_correl g h

/-- Witness for C3 at a concrete grouping mixing primitive, condition, raw and
nested-object items. -/
theorem c3_witness :
    gwf sampleGrouping = true ∧
    (countQ (Grouping.getWhere sampleGrouping).1 =
        (Grouping.getWhere sampleGrouping).2.length ∧
      substQ (Grouping.getWhere sampleGrouping).1
        (Grouping.getWhere sampleGrouping).2 = gInline sampleGrouping) :=
  ⟨by decide, c3_grouping_placeholder_correlation sampleGrouping (by decide)⟩

theorem chVal_digitChar : ∀ d < 10, chVal (Nat.digitChar d) = d := by decide

theorem toDigitsCore_append (b f n : Nat) (acc : List Char) :
    Nat.toDigitsCore b f n acc = Nat.toDigitsCore b f n [] ++ acc := by
  induction f generalizing n acc with
  | zero => simp [Nat.toDigitsCore]
  | succ f ih =>
    simp only [Nat.toDigitsCore]
    by_cases h : n / b = 0
    · simp [h]
    · simp only [if_neg h]
      rw [ih (n / b) (Nat.digitChar (n % b) :: acc), ih (n / b) [Nat.digitChar (n % b)]]
      simp

theorem parseDigits_append_digit (xs : List Char) (d : Char) :
    parseDigits (xs ++ [d]) = parseDigits xs * 10 + chVal d := by
  simp [parseDigits, List.foldl_append]

theorem parse_toDigitsCore (f : Nat) : ∀ n, n < 10 ^ f →
    parseDigits (Nat.toDigitsCore 10 f n []) = n := by
  induction f with
  | zero =>
    intro n hn
    have : n = 0 := by simpa using Nat.lt_one_iff.mp (by simpa using hn)
    subst this
    rfl
  | succ f ih =>
    intro n hn
    simp only [Nat.toDigitsCore]
    by_cases h : n / 10 = 0
    · simp only [if_pos h]
      have hn10 : n < 10 := by omega
      have hmod : n % 10 = n := Nat.mod_eq_of_lt hn10
      show parseDigits [Nat.digitChar (n % 10)] = n
      simp only [parseDigits, List.foldl_cons, List.foldl_nil, Nat.zero_mul,
        Nat.zero_add]
      rw [hmod]
      exact chVal_digitChar n hn10
    · simp only [if_neg h]
      rw [toDigitsCore_append, parseDigits_append_digit]
      have hdiv : n / 10 < 10 ^ f := by
        rw [pow_succ] at hn
        omega
      rw [ih (n / 10) hdiv, chVal_digitChar _ (Nat.mod_lt n (by norm_num))]
      omega

theorem parse_toString (n : Nat) : parseDigits (toString n).data = n := by
  show parseDigits (Nat.toDigits 10 n).asString.data = n
  have hdata : (Nat.toDigits 10 n).asString.data = Nat.toDigits 10 n := rfl
  rw [hdata]
  show parseDigits (Nat.toDigitsCore 10 (n + 1) n []) = n
  refine parse_toDigitsCore (n + 1) n ?_
  calc n < 10 ^ n := Nat.lt_pow_self (by norm_num) n
    _ ≤ 10 ^ (n + 1) := Nat.pow_le_pow_right (by norm_num) (Nat.le_succ n)

theorem natToString_inj : Function.Injective (fun n : Nat => toString n) := by
  intro a b h
  have := congrArg (fun s => parseDigits (String.data s)) h
  simpa [parse_toString] using this

theorem talias_inj : Function.Injective (fun n : Nat => "t" ++ toString n) := by
  intro a b h
  apply natToString_inj
  have hd := congrArg String.data h
  simp only [String.data_append] at hd
  have hdd : (toString a).data = (toString b).data := by simpa using hd
  show toString a = toString b
  exact String.ext hdd

/-- Along a chain, `_addWith` assigns the indexes `k+1, k+2, ...` depth-first
(each child continues its parent's counter) and aliases `t<index>`. -/
theorem chain_addWith : ∀ (cs : List AQ), isChain cs = true → ∀ k : Nat,
    taggedIndexes (addWith cs k).1 = List.range' (k + 1) (chainLength cs) ∧
    taggedAliases (addWith cs k).1 =
      (List.range' (k + 1) (chainLength cs)).map fun n => "t" ++ toString n
  | [], _, k => by simp [addWith, taggedIndexes, taggedAliases, chainLength]
  | [.mk cs2], h, k => by
    have ih := chain_addWith cs2 (by simpa [isChain, isChainNode] using h) (k + 1)
    simp only [addWith, addWithNode, taggedIndexes, taggedIndexesNode,
      taggedAliases, taggedAliasesNode, chainLength, chainLengthNode,
      List.append_nil]
    constructor
    · rw [ih.1]
      rfl
    · rw [ih.2]
      rfl
  | .mk _ :: .mk _ :: _, h, _ => by simp [isChain] at h

/-- C2 counterexample: with root children `[c1, c2]` where `c1` itself has one
child `g`, `_addWith` assigns `c1 ↦ t1`, then `g ↦ t2` (continuing the own
counter of `c1`), and then `c2 ↦ t2` as well, because the increments made
inside the subtree of `c1` are invisible to the root counter — two queries of
the same compiled statement share alias `t2`, refuting global uniqueness. -/
theorem c2_alias_collision_counterexample :
    allAliases "user" [.mk [.mk []], .mk []] = ["user", "t1", "t2", "t2"] ∧
    ¬(allAliases "user" [.mk [.mk []], .mk []]).Nodup := by
  constructor
  · rfl
  · decide

/-- C2 amended: the root keeps its table name as alias and each child query is
assigned alias `t<N>` with `N` one more than its parent's counter at join
time; the counter increases down any single chain of joins, so for chain
shaped join trees (each query at most one attached child — which covers the
cyclic-join case the spec is concerned with) the child aliases are exactly
`t1 ... t<depth>` and all aliases in the compiled statement are pairwise
distinct (provided the table name is not itself of the form `t<N>`); but the
counter is per query object, not global to the statement, so aliases of
sibling subtrees can collide (see the counterexample). -/
theorem c2_chain_alias_uniqueness (table : String) (cs : List AQ)
    (h : isChain cs = true) (ht : ∀ n : Nat, table ≠ "t" ++ toString n) :
    allAliases table cs =
      table :: (List.range' 1 (chainLength cs)).map (fun n => "t" ++ toString n) ∧
    (allAliases table cs).Nodup := by
  have hc := chain_addWith cs h 0
  constructor
  · simp [allAliases, hc.2]
  · simp only [allAliases, hc.2]
    rw [List.nodup_cons]
    constructor
    · intro hmem
      obtain ⟨n, _, hn⟩ := List.mem_map.mp hmem
      exact ht n hn.symm
    · exact (List.nodup_range' 1 (chainLength cs)).map talias_inj

/-- Witness for C2 amended at a two-deep chain under root table "user". -/
theorem c2_witness :
    isChain [AQ.mk [AQ.mk []]] = true ∧
    (allAliases "user" [AQ.mk [AQ.mk []]] =
        "user" :: (List.range' 1 (chainLength [AQ.mk [AQ.mk []]])).map
          (fun n => "t" ++ toString n) ∧
      (allAliases "user" [AQ.mk [AQ.mk []]]).Nodup) :=
  ⟨by decide,
    c2_chain_alias_uniqueness "user" [AQ.mk [AQ.mk []]] (by decide)
      (by
        intro n hn
        have hd := congrArg String.data hn
        rw [show ("user" : String).data = ['u', 's', 'e', 'r'] from rfl] at hd
        simp [String.data_append] at hd)⟩

theorem range'_concat₁ (s n : Nat) :
    List.range' s (n + 1) = List.range' s n ++ [s + n] := by
  have h := List.range'_append_1 s n 1
  rw [show List.range' (s + n) 1 = [s + n] from rfl, Nat.add_comm 1 n] at h
  exact h.symm

theorem lookupA_memoOf_not_mem {v : String} {d : List String} (hv : v ∉ d) :
    ∀ k, lookupA (memoOf k d) v = none := by
  induction d with
  | nil => intro k; rfl
  | cons w rest ih =>
    intro k
    have hw : ¬w = v := fun hh => hv (hh ▸ List.mem_cons_self w rest)
    simp only [memoOf, lookupA, if_neg hw]
    exact ih (fun hm => hv (List.mem_cons_of_mem w hm)) (k + 1)

theorem lookupA_memoOf_mem {v : String} {d : List String} (hv : v ∈ d) :
    ∀ k, ∃ r, lookupA (memoOf k d) v = some r := by
  induction d with
  | nil => cases hv
  | cons w rest ih =>
    intro k
    by_cases hw : w = v
    · exact ⟨k, by simp [memoOf, lookupA, hw]⟩
    · rcases List.mem_cons.mp hv with hv' | hv'
      · exact absurd hv'.symm hw
      · obtain ⟨r, hr⟩ := ih hv' (k + 1)
        exact ⟨r, by simp [memoOf, lookupA, hw, hr]⟩

theorem setA_append_of_not_key {α : Type} {l : List (String × α)} {key : String}
    (h : lookupA l key = none) (x : α) : setA l key x = l ++ [(key, x)] := by
  induction l with
  | nil => rfl
  | cons hd rest ih =>
    simp only [lookupA] at h
    by_cases hk : hd.1 = key
    · simp [hk] at h
    · simp only [setA, if_neg hk, List.cons_append]
      rw [ih (by simpa [hk] using h)]

theorem memoOf_append (k : Nat) (d : List String) (v : String) :
    memoOf k (d ++ [v]) = memoOf k d ++ [(v, k + d.length)] := by
  induction d generalizing k with
  | nil => simp [memoOf]
  | cons w rest ih =>
    have h1 : memoOf k ((w :: rest) ++ [v]) = (w, k) :: memoOf (k + 1) (rest ++ [v]) := rfl
    have h2 : k + 1 + rest.length = k + (w :: rest).length := by
      simp only [List.length_cons]
      omega
    rw [h1, ih (k + 1), h2]
    rfl

theorem splitRow_pRow (v : String) : splitRow (pRow v) = [("user", pBag v)] := rfl

/-- Reduction of one `_parseData` call of `rootOnly` down to its memo
lookup. -/
theorem c4_parseData_eq (d : List String) (v : String) :
    parseData rootOnly (c4State d) (c4Store d) [("user", pBag v)] =
      match lookupA (memoOf 0 d) v with
      | some r => (r, c4State d, c4Store d)
      | none =>
        ((c4Store d).length,
          .mk (setA (memoOf 0 d) v (c4Store d).length)
            (List.range' 0 d.length ++ [(c4Store d).length]) [],
          c4Store d ++ [⟨pBag v, true, []⟩]) := rfl

/-- One `_parseData` call of the parent-only query on a row with identity `v`:
a previously seen identity leaves state and store untouched (the memoised
record is reused); a fresh identity appends one record, one memo entry and one
output-list entry. -/
theorem c4_step (d : List String) (v : String) :
    (parseData rootOnly (c4State d) (c4Store d) (splitRow (pRow v))).2 =
      if d.contains v then (c4State d, c4Store d)
      else (c4State (d ++ [v]), c4Store (d ++ [v])) := by
  rw [splitRow_pRow, c4_parseData_eq]
  by_cases hv : v ∈ d
  · have hc : d.contains v = true := by simpa using hv
    obtain ⟨r, hr⟩ := lookupA_memoOf_mem hv 0
    rw [hr, if_pos hc]
  · have hc : d.contains v = false := by simpa using hv
    rw [lookupA_memoOf_not_mem hv 0, if_neg (by simpa using hv)]
    have hlen : (c4Store d).length = d.length := by simp [c4Store]
    have hmemo : setA (memoOf 0 d) v (c4Store d).length = memoOf 0 (d ++ [v]) := by
      rw [setA_append_of_not_key (lookupA_memoOf_not_mem hv 0), memoOf_append, hlen]
      simp
    have hrows : List.range' 0 d.length ++ [(c4Store d).length] =
        List.range' 0 (d ++ [v]).length := by
      rw [hlen, List.length_append, List.length_singleton, range'_concat₁]
      simp
    have hstore : c4Store d ++ [Rec.mk (pBag v) true []] = c4Store (d ++ [v]) := by
      simp [c4Store]
    dsimp only
    rw [hmemo, hrows, hstore]
    rfl

theorem dedupFold_cons (d : List String) (v : String) (rest : List String) :
    dedupFold d (v :: rest) =
      dedupFold (if d.contains v then d else d ++ [v]) rest := rfl

/-- The parse-rows invariant of the parent-only query: parsing any further
rows extends the first-seen deduplication. -/
theorem c4_parseRows (ids : List String) : ∀ d : List String,
    parseRows rootOnly (c4State d) (c4Store d) (ids.map pRow) =
      (c4State (dedupFold d ids), c4Store (dedupFold d ids)) := by
  induction ids with
  | nil => intro d; rfl
  | cons v rest ih =>
    intro d
    simp only [List.map_cons, parseRows]
    have hstep := c4_step d v
    by_cases hv : v ∈ d
    · have hc : d.contains v = true := by simpa using hv
      rw [show (parseData rootOnly (c4State d) (c4Store d) (splitRow (pRow v))).2 =
          (c4State d, c4Store d) from by rw [hstep, if_pos hc]]
      rw [dedupFold_cons, if_pos hc]
      exact ih d
    · have hc : d.contains v = false := by simpa using hv
      rw [show (parseData rootOnly (c4State d) (c4Store d) (splitRow (pRow v))).2 =
          (c4State (d ++ [v]), c4Store (d ++ [v])) from by
        rw [hstep, if_neg (by simpa using hv)]]
      rw [dedupFold_cons, if_neg (by simpa using hv)]
      exact ih (d ++ [v])

/-- C4: row reconstruction is idempotent over duplicate parent rows — for any
list of identity values (duplicates included, in any positions), parsing the
corresponding rows produces exactly one record per distinct identity value,
materialised at the store reference equal to its first-seen position; the
memo (`_parsedData`) maps each identity to that record; and the output list
(`_parsedRows`) holds the references `0, 1, ...` in first-seen order — a
repeated identity adds nothing and reuses the memoised record. -/
theorem c4_duplicate_rows_idempotent (ids : List String) :
    parseRows rootOnly (initState rootOnly) [] (ids.map pRow) =
      (c4State (dedupFirstSeen ids), c4Store (dedupFirstSeen ids)) := by
  have h := c4_parseRows ids []
  simpa [dedupFirstSeen] using h

theorem splitRow_cRow_some (s : String) : splitRow (cRow (some s)) =
    [("user", pBag "u1"), ("image", iBag s)] := rfl

/-- The child query's `_parseData` on a matched row with a fresh image id:
materialises the child record at the next store reference. -/
theorem c1_child_parseData (m : List String) (s : String) (hs : s ∉ m) :
    parseData childNode (.mk (memoOf 1 m) (List.range' 1 m.length) [])
      (c1Store m) [("user", pBag "u1"), ("image", iBag s)] =
      ((c1Store m).length,
        .mk (memoOf 1 (m ++ [s])) (List.range' 1 (m ++ [s]).length) [],
        c1Store m ++ [⟨iBag s, true, []⟩]) := by
  have heq : parseData childNode (.mk (memoOf 1 m) (List.range' 1 m.length) [])
      (c1Store m) [("user", pBag "u1"), ("image", iBag s)] =
      match lookupA (memoOf 1 m) s with
      | some r => (r, .mk (memoOf 1 m) (List.range' 1 m.length) [], c1Store m)
      | none =>
        ((c1Store m).length,
          .mk (setA (memoOf 1 m) s (c1Store m).length)
            (List.range' 1 m.length ++ [(c1Store m).length]) [],
          c1Store m ++ [⟨iBag s, true, []⟩]) := rfl
  rw [heq, lookupA_memoOf_not_mem hs 1]
  dsimp only
  have hlen : (c1Store m).length = m.length + 1 := by simp [c1Store]
  have hmemo : setA (memoOf 1 m) s (c1Store m).length = memoOf 1 (m ++ [s]) := by
    rw [setA_append_of_not_key (lookupA_memoOf_not_mem hs 1), memoOf_append, hlen]
    rw [Nat.add_comm 1 m.length]
  have hrows : List.range' 1 m.length ++ [(c1Store m).length] =
      List.range' 1 (m ++ [s]).length := by
    rw [hlen, List.length_append, List.length_singleton, range'_concat₁,
      Nat.add_comm 1 m.length]
  rw [hmemo, hrows]


/-- One `_parseData` call of the joined query from a state where the parent
record exists: an all-null child part changes nothing; a matched child row
with a fresh image id appends the child record and wraps the parent's
attachment. -/
theorem c1_step (m : List String) (c : Option String)
    (hno : ∀ s, c = some s → s ∉ m) :
    (parseData rootWithChild (c1State m) (c1Store m) (splitRow (cRow c))).2 =
      (c1State (m ++ c.toList), c1Store (m ++ c.toList)) := by
  cases c with
  | none =>
    show (parseData rootWithChild (c1State m) (c1Store m)
        (splitRow (cRow none))).2 = (c1State (m ++ []), c1Store (m ++ []))
    rw [List.append_nil]
    rfl
  | some s =>
    have hs : s ∉ m := hno s rfl
    rw [splitRow_cRow_some]
    have heq : parseData rootWithChild (c1State m) (c1Store m)
        [("user", pBag "u1"), ("image", iBag s)] =
        (let res := parseData childNode
            (.mk (memoOf 1 m) (List.range' 1 m.length) []) (c1Store m)
            [("user", pBag "u1"), ("image", iBag s)];
          (0, PState.mk [("u1", 0)] [0] [res.2.1], attach res.2.2 0 "image" res.1)) := rfl
    rw [heq]
    simp only [c1_child_parseData m s hs]
    show (PState.mk [("u1", 0)] [0]
        [PState.mk (memoOf 1 (m ++ [s])) (List.range' 1 (m ++ [s]).length) []],
        attach (c1Store m ++ [⟨iBag s, true, []⟩]) 0 "image" (c1Store m).length) =
      (c1State (m ++ [s]), c1Store (m ++ [s]))
    cases m with
    | nil => rfl
    | cons m0 mrest =>
      have hlen : (c1Store (m0 :: mrest)).length = mrest.length + 2 := by
        simp [c1Store]
      have hsplit2 : c1Store (m0 :: mrest) ++ [(⟨iBag s, true, []⟩ : Rec)] =
          (⟨pBag "u1", true, [("image", leftNest (mrest.length + 1))]⟩ : Rec) ::
            (((m0 :: mrest).map fun c => Rec.mk (iBag c) true []) ++
              [⟨iBag s, true, []⟩]) := by
        simp [c1Store]
      have hatt : attach (c1Store (m0 :: mrest) ++ [(⟨iBag s, true, []⟩ : Rec)]) 0
          "image" (c1Store (m0 :: mrest)).length =
          c1Store ((m0 :: mrest) ++ [s]) := by
        rw [hlen, hsplit2]
        show (⟨pBag "u1", true,
            [("image", Att.pair (leftNest (mrest.length + 1)) (mrest.length + 2))]⟩ :
              Rec) ::
            (((m0 :: mrest).map fun c => Rec.mk (iBag c) true []) ++
              [⟨iBag s, true, []⟩]) =
          c1Store ((m0 :: mrest) ++ [s])
        have hLN : Att.pair (leftNest (mrest.length + 1)) (mrest.length + 2) =
            leftNest (mrest.length + 2) := rfl
        rw [hLN]
        simp [c1Store, List.length_append]
      rw [hatt]
      rfl

/-- The first row materialises the parent record (and the child record, if the
child columns are not all null). -/
theorem c1_firstRow (c : Option String) :
    (parseData rootWithChild (initState rootWithChild) []
        (splitRow (cRow c))).2 = (c1State c.toList, c1Store c.toList) := by
  cases c with
  | none => rfl
  | some s => rfl

/-- The parse-rows invariant of the joined query: each further row adds its
matched child id (if any) to the accumulated state. -/
theorem c1_parseRows (cs : List (Option String)) : ∀ m : List String,
    (m ++ cs.filterMap id).Nodup →
    parseRows rootWithChild (c1State m) (c1Store m) (cs.map cRow) =
      (c1State (m ++ cs.filterMap id), c1Store (m ++ cs.filterMap id)) := by
  induction cs with
  | nil =>
    intro m _
    simp [parseRows]
  | cons c rest ih =>
    intro m hnd
    simp only [List.map_cons, parseRows]
    have hno : ∀ s, c = some s → s ∉ m := by
      intro s hc hmem
      subst hc
      have hnd' : (m ++ s :: rest.filterMap id).Nodup := by simpa using hnd
      exact (List.disjoint_of_nodup_append hnd') hmem (by simp)
    rw [c1_step m c hno]
    have hnd2 : ((m ++ c.toList) ++ rest.filterMap id).Nodup := by
      cases c <;> simpa using hnd
    have h2 := ih (m ++ c.toList) hnd2
    have h3 : (m ++ c.toList) ++ rest.filterMap id =
        m ++ (c :: rest).filterMap id := by
      cases c <;> simp
    rw [h3] at h2
    exact h2

/-- C1 amended: for a joined fetch, a parent row whose child columns are all
null leaves the child's output key unset; exactly one matched child row sets
the key to the single child record; a second matched row upgrades it to the
two-element list `[r1, r2]` in first-seen order; but each further matched row
wraps the EXISTING value in a fresh two-element array `[previousValue,
newRecord]`, so n ≥ 3 matched child rows yield a left-nested pair tree
(`leftNest`), not a flat n-element list.  The full final state is
characterised: child records sit at references `1 ... n` in first-seen row
order, and the parent's `"image"` key holds `leftNest n` (unset for n = 0). -/
theorem c1_child_attachment (cs : List (Option String)) (hne : cs ≠ [])
    (hnd : (cs.filterMap id).Nodup) :
    parseRows rootWithChild (initState rootWithChild) [] (cs.map cRow) =
      (c1State (cs.filterMap id), c1Store (cs.filterMap id)) ∧
    lookupA (getRec (parseRows rootWithChild (initState rootWithChild) []
        (cs.map cRow)).2 0).attached "image" =
      (match cs.filterMap id with
        | [] => none
        | M => some (leftNest M.length)) := by
  match cs, hne with
  | c :: rest, _ =>
    have h1 : parseRows rootWithChild (initState rootWithChild) []
        ((c :: rest).map cRow) =
        (c1State ((c :: rest).filterMap id), c1Store ((c :: rest).filterMap id)) := by
      simp only [List.map_cons, parseRows]
      rw [c1_firstRow c]
      have hnd2 : (c.toList ++ rest.filterMap id).Nodup := by
        cases c <;> simpa using hnd
      have h2 := c1_parseRows rest c.toList hnd2
      have h3 : c.toList ++ rest.filterMap id = (c :: rest).filterMap id := by
        cases c <;> simp
      rw [h3] at h2
      exact h2
    refine ⟨h1, ?_⟩
    rw [h1]
    rcases hM : (c :: rest).filterMap id with _ | ⟨m0, mrest⟩
    · rfl
    · simp [c1Store, getRec, lookupA]

/-- C1 counterexample: three matched child rows (image ids i1, i2, i3 under
one parent) produce at the child key the left-nested value `[[r1, r2], r3]` —
a two-element array whose first element is itself an array — not a flat
three-element list of child records as the claim states for n = 3. -/
theorem c1_three_rows_counterexample :
    lookupA (getRec (parseRows rootWithChild (initState rootWithChild) []
        [cRow (some "i1"), cRow (some "i2"), cRow (some "i3")]).2 0).attached
      "image" = some (Att.pair (Att.pair (Att.leaf 1) 2) 3) ∧
    attElems (Att.pair (Att.pair (Att.leaf 1) 2) 3) = none := ⟨rfl, rfl⟩

/-- Witness for C1 amended at two matched child rows (the flat-pair case). -/
theorem c1_witness :
    ([some "i1", some "i2"] : List (Option String)) ≠ [] ∧
    (([some "i1", some "i2"] : List (Option String)).filterMap id).Nodup ∧
    (parseRows rootWithChild (initState rootWithChild) []
        (([some "i1", some "i2"] : List (Option String)).map cRow) =
      (c1State ["i1", "i2"], c1Store ["i1", "i2"]) ∧
    lookupA (getRec (parseRows rootWithChild (initState rootWithChild) []
        (([some "i1", some "i2"] : List (Option String)).map cRow)).2 0).attached
      "image" = some (leftNest 2)) :=
  ⟨by decide, by decide, by
    have h := c1_child_attachment [some "i1", some "i2"] (by decide) (by decide)
    simpa using h⟩

mutual

/-- A child query's `_maybeThrowFetchRequireErrors` throws the plural
`RowsNotFoundError` exactly when `_require` is set on it or any query below
it. -/
theorem maybeThrowNode_eq (q : QNode) :
    maybeThrowFetchRequireErrors q true =
      (if anyRequireNode q then some KnormError.rowsNotFoundError else none) := by
  match q with
  | .mk info cs =>
    by_cases hr : info.required
    · simp [maybeThrowFetchRequireErrors, anyRequireNode, hr]
    · simp only [maybeThrowFetchRequireErrors, anyRequireNode, hr,
        Bool.false_or, if_neg]
      rw [maybeThrowChildren_eq cs]
      simp [hr]

/-- The child recursion throws exactly when some query in the forest has
`_require` set. -/
theorem maybeThrowChildren_eq (cs : List QNode) :
    maybeThrowChildren cs =
      (if anyRequire cs then some KnormError.rowsNotFoundError else none) := by
  match cs with
  | [] => simp [maybeThrowChildren, anyRequire]
  | q :: rest =>
    rw [maybeThrowChildren, maybeThrowNode_eq q]
    by_cases h : anyRequireNode q
    · simp [anyRequire, h]
    · rw [maybeThrowChildren_eq rest]
      simp [anyRequire, h]

end

/-- C5 counterexample: a zero-row fetch on a root whose own `require` is NOT
set still rejects — with the plural `RowsNotFoundError` — when an attached
child query has `require` set, because `_maybeThrowFetchRequireErrors`
recurses into the children; the claim says an unset `require` resolves with
an empty list. -/
theorem c5_child_require_counterexample :
    (QNode.info rootChildRequire).required = false ∧
    fetch rootChildRequire false [] = .error .rowsNotFoundError := ⟨rfl, rfl⟩

/-- C5 amended: for a root fetch whose statement resolved with zero rows —
if the root's `require` is set, the fetch rejects with the singular
`RowNotFoundError` when `first` is also set and the plural
`RowsNotFoundError` otherwise (these errors are constructed with no
underlying cause, see `KnormError`); if the root's `require` is unset and no
attached child query at any depth has `require` set, the fetch resolves with
`null` when `first` is set and with the empty list otherwise; but if some
attached child has `require` set, the fetch instead rejects with the plural
`RowsNotFoundError` (a child always raises the plural variant). -/
theorem c5_zero_row_fetch (q : QNode) :
    ((QNode.info q).required = true →
      fetch q false [] = .error (if (QNode.info q).first
        then .rowNotFoundError else .rowsNotFoundError)) ∧
    ((QNode.info q).required = false → anyRequire (QNode.children q) = false →
      fetch q false [] = .ok (if (QNode.info q).first
        then .fetchNull else .fetchEmpty)) ∧
    ((QNode.info q).required = false → anyRequire (QNode.children q) = true →
      fetch q false [] = .error .rowsNotFoundError) := by
  match q with
  | .mk info cs =>
    refine ⟨fun hr => ?_, fun hr hc => ?_, fun hr hc => ?_⟩
    · simp [fetch, maybeThrowFetchRequireErrors, QNode.info] at hr ⊢
      rw [if_pos hr]
    · simp only [QNode.info, QNode.children] at hr hc ⊢
      simp [fetch, maybeThrowFetchRequireErrors, hr, maybeThrowChildren_eq, hc]
      rfl
    · simp only [QNode.info, QNode.children] at hr hc ⊢
      simp [fetch, maybeThrowFetchRequireErrors, hr, maybeThrowChildren_eq, hc]

/-- Witness for C5 amended: a plain root (no `require` anywhere) resolves
with the empty list on zero rows, and the same root with `require` and
`first` set rejects with the singular variant. -/
theorem c5_witness :
    ((QNode.info rootOnly).required = false ∧
      anyRequire (QNode.children rootOnly) = false ∧
      fetch rootOnly false [] = .ok .fetchEmpty) ∧
    ((QNode.info reqFirstRoot).required = true ∧
      fetch reqFirstRoot false [] = .error .rowNotFoundError) :=
  ⟨⟨rfl, rfl, by
      have h := (c5_zero_row_fetch rootOnly).2.1 rfl rfl
      simpa using h⟩,
    ⟨rfl, by
      have h := (c5_zero_row_fetch reqFirstRoot).1 rfl
      simpa using h⟩⟩

/-- C6 (code bug): `count` never consults the `require` flag — its result is
the same whatever the flag — and in particular a count matching zero rows
(the driver returns the count string "0") resolves with the plain value `0`
even when `require` is set, where the claim (and the repository's own test,
which expects a `NoRowsCountedError` rejection) demands an error. -/
theorem c6_count_ignores_require :
    (∀ (req : Bool) (res : Except Nat String), count req res = count false res) ∧
    count true (.ok "0") = .ok 0 := by
  constructor
  · intro req res
    rfl
  · rfl

/-- C9: `save(data)` performs exactly `insert(data)` when the data's
identity-field value is undefined, and exactly `update(data)` (whose
pre-compilation phase adds the identity where clause) when it is defined. -/
theorem c9_save_dispatch (q : WQuery) (data : Bag) :
    (save q data = SaveCall.ins q data ↔ lookupA data q.idField = none) ∧
    (save q data = SaveCall.upd (updatePrepare q data) data ↔
      lookupA data q.idField ≠ none) := by
  by_cases h : lookupA data q.idField = none
  · constructor <;> simp [save, h]
  · constructor <;> simp [save, h]

/-- Witness for C9 on a bag with the identity defined and one without. -/
theorem c9_witness :
    save sampleWQuery [("id", Val.i 7)] =
      SaveCall.upd (updatePrepare sampleWQuery [("id", Val.i 7)]) [("id", Val.i 7)] ∧
    save sampleWQuery [("name", Val.s "x")] =
      SaveCall.ins sampleWQuery [("name", Val.s "x")] :=
  ⟨(c9_save_dispatch sampleWQuery [("id", Val.i 7)]).2.mpr (by decide),
    (c9_save_dispatch sampleWQuery [("name", Val.s "x")]).1.mpr (by decide)⟩

/-- C10: when the (validated) instance's identity value is defined, `update`
appends the where clause equating the identity field to that value before
compiling, so every row matching the compiled where clauses has exactly that
identity value; when the identity value is undefined, the where clauses are
exactly the explicitly configured ones (no identity constraint is added). -/
theorem c10_update_targets_identity (q : WQuery) (data : Bag) :
    (∀ idv, lookupA data q.idField = some idv →
      (updatePrepare q data).wheres = q.wheres ++ [(q.idField, idv)] ∧
      ∀ row : Bag, matchesAll (updatePrepare q data).wheres row = true →
        (lookupA row q.idField).getD Val.null = idv) ∧
    (lookupA data q.idField = none → updatePrepare q data = q) := by
  constructor
  · intro idv hid
    constructor
    · simp [updatePrepare, instanceOf, hid]
    · intro row hm
      simp only [updatePrepare, instanceOf, hid, matchesAll, List.all_append,
        List.all_cons, List.all_nil, Bool.and_eq_true] at hm
      have := hm.2.1
      simpa [clauseSat] using this
  · intro hid
    simp [updatePrepare, instanceOf, hid]

/-- Witness for C10: with identity 7 defined, only rows whose id is 7 match
the prepared update's where clauses. -/
theorem c10_witness :
    lookupA [("id", Val.i 7), ("name", Val.s "x")] sampleWQuery.idField =
      some (Val.i 7) ∧
    ((updatePrepare sampleWQuery [("id", Val.i 7), ("name", Val.s "x")]).wheres =
        sampleWQuery.wheres ++ [(sampleWQuery.idField, Val.i 7)]) ∧
    (matchesAll (updatePrepare sampleWQuery
          [("id", Val.i 7), ("name", Val.s "x")]).wheres
        [("id", Val.i 8), ("name", Val.s "n")] = true →
      (lookupA [("id", Val.i 8), ("name", Val.s "n")]
        sampleWQuery.idField).getD Val.null = Val.i 7) := by
  refine ⟨by decide, ?_, ?_⟩
  · exact ((c10_update_targets_identity sampleWQuery
      [("id", Val.i 7), ("name", Val.s "x")]).1 (Val.i 7) (by decide)).1
  · exact ((c10_update_targets_identity sampleWQuery
      [("id", Val.i 7), ("name", Val.s "x")]).1 (Val.i 7) (by decide)).2
      [("id", Val.i 8), ("name", Val.s "n")]
